import Mathlib

/-!
Verification of `scripts/jarvis-voice.py` (OpenClaw playbook voice agent).

The definitions below are a shallow embedding of the Python source:
Python strings become `String`/`List Char`, the conversation memory list of
role/content dicts becomes `List Turn`, and the streaming pipeline's token
loop becomes an explicit state-passing function.  Python-specific string
primitives (`str.split`, `str.strip`, `str.replace`, `re.sub` for the two
concrete patterns used, and the route-detection regular expression) are
modelled character by character over ASCII text.
-/

set_option autoImplicit false

/-- Python `str.isspace` for the ASCII whitespace characters recognised by
`str.split` / `str.strip` / `\s`. -/
def pyIsSpace (c : Char) : Bool :=
  c = ' ' || c = '\t' || c = '\n' || c = '\r' || c = '\x0b' || c = '\x0c'

/-- Python `str.strip()` on a character list: drop whitespace from both ends. -/
def pyStrip (l : List Char) : List Char :=
  ((l.dropWhile pyIsSpace).reverse.dropWhile pyIsSpace).reverse

/-- Accumulator pass of `pyWords`; `cur` holds the current word reversed. -/
def pyWordsAux : List Char → List Char → List (List Char)
  | [], cur => if cur.isEmpty then [] else [cur.reverse]
  | c :: rest, cur =>
    if pyIsSpace c then
      (if cur.isEmpty then [] else [cur.reverse]) ++ pyWordsAux rest []
    else
      pyWordsAux rest (c :: cur)

/-- Python `text.split()` with no argument: split on whitespace runs,
dropping empty pieces. -/
def pyWords (l : List Char) : List (List Char) :=
  pyWordsAux l []

/-- Matches a literal character sequence `pat` at the head of `l`,
returning the remainder on success. -/
def dropLit : List Char → List Char → Option (List Char)
  | [], l => some l
  | _ :: _, [] => none
  | p :: ps, c :: cs => if c = p then dropLit ps cs else none

/-- Python `s.startswith(pat)`. -/
def pyStartsWith (s pat : String) : Bool :=
  (dropLit pat.data s.data).isSome

/-- Fuel-indexed body of Python `str.replace`: scan left to right, replacing
each non-overlapping occurrence of `pat` (non-empty) with `rep`. -/
def pyReplaceFuel (pat rep : List Char) : Nat → List Char → List Char
  | 0, l => l
  | _ + 1, [] => []
  | fuel + 1, c :: rest =>
    match dropLit pat (c :: rest) with
    | some rest' => rep ++ pyReplaceFuel pat rep fuel rest'
    | none => c :: pyReplaceFuel pat rep fuel rest

/-- Python `text.replace(pat, rep)` for a non-empty pattern. -/
def pyReplace (l pat rep : List Char) : List Char :=
  pyReplaceFuel pat rep l.length l

/-- Consumes one `\s*\.` group (used by the `\.(\s*\.)+` substitution in
`format_for_speech`). -/
def eatDotGroup (l : List Char) : Option (List Char) :=
  match l.dropWhile pyIsSpace with
  | '.' :: r => some r
  | _ => none

/-- Greedily consumes further `\s*\.` groups. -/
def eatDotGroupsFuel : Nat → List Char → List Char
  | 0, l => l
  | fuel + 1, l =>
    match eatDotGroup l with
    | some r => eatDotGroupsFuel fuel r
    | none => l

/-- Fuel-indexed body of `re.sub(r"\.(\s*\.)+", ".", text)`: a period
followed by one or more whitespace-separated periods collapses to a single
period. -/
def subDotRunsFuel : Nat → List Char → List Char
  | 0, l => l
  | _ + 1, [] => []
  | fuel + 1, c :: rest =>
    if c = '.' then
      match eatDotGroup rest with
      | some r => '.' :: subDotRunsFuel fuel (eatDotGroupsFuel r.length r)
      | none => '.' :: subDotRunsFuel fuel rest
    else c :: subDotRunsFuel fuel rest

/-- Python `re.sub(r"\.(\s*\.)+", ".", text)` over a character list. -/
def subDotRuns (l : List Char) : List Char :=
  subDotRunsFuel l.length l

/-- Fuel-indexed body of `re.sub(r"\s{2,}", " ", text)`: a run of two or
more whitespace characters collapses to a single space. -/
def subMultiSpaceFuel : Nat → List Char → List Char
  | 0, l => l
  | _ + 1, [] => []
  | fuel + 1, c :: rest =>
    if pyIsSpace c then
      match rest with
      | c2 :: _ =>
        if pyIsSpace c2 then ' ' :: subMultiSpaceFuel fuel (rest.dropWhile pyIsSpace)
        else c :: subMultiSpaceFuel fuel rest
      | [] => [c]
    else c :: subMultiSpaceFuel fuel rest

/-- Python `re.sub(r"\s{2,}", " ", text)` over a character list. -/
def subMultiSpace (l : List Char) : List Char :=
  subMultiSpaceFuel l.length l

/-!
## Conversation Memory

Embedding of `ConversationMemory` (`jarvis-voice.py` lines 238-308).  The
class state is its `turns` list of `{role, content}` dicts; persistence
(`_save`/`_load`) is I/O and is outside each operation's list semantics.
-/

/-- A conversation turn: the Python dict `{"role": ..., "content": ...}`. -/
structure Turn where
  role : String
  content : String
  deriving DecidableEq, Repr

/-- `ConversationMemory._trim`: keep the last `max_turns * 2` entries.
Python evaluates `self.turns[-max_messages:]`, and a negative-zero slice
(`turns[-0:]`) is the whole list, so `max_messages = 0` trims nothing. -/
def trim (maxTurns : Nat) (turns : List Turn) : List Turn :=
  let maxMessages := maxTurns * 2
  if turns.length > maxMessages then
    if maxMessages = 0 then turns
    else turns.drop (turns.length - maxMessages)
  else turns

/-- `ConversationMemory.add_user`: append a user turn, then trim. -/
def add_user (maxTurns : Nat) (turns : List Turn) (text : String) : List Turn :=
  trim maxTurns (turns ++ [⟨"user", text⟩])

/-- `ConversationMemory.add_assistant`: append an assistant turn, then trim. -/
def add_assistant (maxTurns : Nat) (turns : List Turn) (text : String) : List Turn :=
  trim maxTurns (turns ++ [⟨"assistant", text⟩])

/-- `ConversationMemory.clear`: empty the turn list. -/
def clearMemory (_turns : List Turn) : List Turn := []

/-- `ConversationMemory.forget_last`: pop the trailing turn if its role is
`assistant`, then pop the (new) trailing turn if its role is `user`. -/
def forget_last (turns : List Turn) : List Turn :=
  let t1 :=
    match turns.getLast? with
    | some t => if t.role = "assistant" then turns.dropLast else turns
    | none => turns
  match t1.getLast? with
  | some t => if t.role = "user" then t1.dropLast else t1
  | none => t1

/-- Appends user/assistant pairs `0, 1, ..., k-1` in order, with contents
`us i` / `asst i`, through `add_user`/`add_assistant` (each trims). -/
def appendPairs (maxTurns : Nat) (us asst : Nat → String) : Nat → List Turn
  | 0 => []
  | k + 1 =>
    add_assistant maxTurns (add_user maxTurns (appendPairs maxTurns us asst k) (us k)) (asst k)

/-- The turns of pairs `lo, lo+1, ..., lo+n-1`. -/
def pairsFrom (us asst : Nat → String) (lo : Nat) : Nat → List Turn
  | 0 => []
  | n + 1 => ⟨"user", us lo⟩ :: ⟨"assistant", asst lo⟩ :: pairsFrom us asst (lo + 1) n

/-!
## Sentence Segmenter

Embedding of `split_into_sentences` (`jarvis-voice.py` lines 323-366).
-/

/-- The `ABBREVIATIONS` set of `jarvis-voice.py` (lines 316-321). -/
def ABBREVIATIONS : List String :=
  ["mr", "mrs", "ms", "dr", "prof", "sr", "jr", "st", "ave",
   "inc", "ltd", "corp", "dept", "est", "approx", "etc",
   "vs", "fig", "vol", "no", "jan", "feb", "mar", "apr",
   "jun", "jul", "aug", "sep", "oct", "nov", "dec"]

/-- Python `word.rstrip(".!?")`: drop trailing sentence punctuation. -/
def rstripPunct (w : List Char) : List Char :=
  (w.reverse.dropWhile (fun c => c = '.' || c = '!' || c = '?')).reverse

/-- Python `word.rstrip(".!?").lower()`. -/
def wordBase (w : List Char) : List Char :=
  (rstripPunct w).map Char.toLower

/-- Python `base.replace(",", "").replace(".", "").isdigit()` (note that
`"".isdigit()` is `False`). -/
def isNumericBase (base : List Char) : Bool :=
  let digitsOnly := base.filter (fun c => !(c = ',' || c = '.'))
  !digitsOnly.isEmpty && digitsOnly.all Char.isDigit

/-- The boundary test of the `split_into_sentences` loop body for a word
`w` with following word `next` (if any): `w` ends in `.!?`, its base is not
an abbreviation, and neither the decimal guard (next word starts with a
digit) nor the bare-numeric guard fires. -/
def endsSentence (w : List Char) (next : Option (List Char)) : Bool :=
  match w.getLast? with
  | none => false
  | some lastChar =>
    if lastChar = '.' || lastChar = '!' || lastChar = '?' then
      let base := wordBase w
      if String.mk base ∈ ABBREVIATIONS then false
      else if lastChar = '.' &&
          (match next with
           | some nw => (match nw.head? with | some c => c.isDigit | none => false)
           | none => false) then false
      else if lastChar = '.' && isNumericBase base then false
      else true
    else false

/-- Joins words with single spaces (Python `" ".join`). -/
def joinWords : List (List Char) → List Char
  | [] => []
  | [w] => w
  | w :: v :: ws => w ++ ' ' :: joinWords (v :: ws)

/-- The main loop of `split_into_sentences`: `current` is the accumulated
word list, the second argument the remaining words.  At a boundary the
joined-and-stripped sentence is emitted if non-empty; after the loop any
remaining words are flushed the same way. -/
def splitLoop : List (List Char) → List (List Char) → List (List Char)
  | current, [] =>
    (match current with
     | [] => []
     | _ :: _ =>
       let s := pyStrip (joinWords current)
       if s.isEmpty then [] else [s])
  | current, w :: rest =>
    let cur := current ++ [w]
    if endsSentence w rest.head? then
      (let s := pyStrip (joinWords cur)
       if s.isEmpty then [] else [s]) ++ splitLoop [] rest
    else
      splitLoop cur rest

/-- `split_into_sentences` (`jarvis-voice.py` lines 323-366). -/
def split_into_sentences (text : String) : List String :=
  if (pyStrip text.data).isEmpty then []
  else (splitLoop [] (pyWords text.data)).map String.mk

/-- Python `" ".join(xs)` on a list of strings. -/
def pyJoin (xs : List String) : String :=
  String.mk (joinWords (xs.map String.data))

/-- Words are well-formed when each is non-empty and whitespace-free —
exactly what Python `text.split()` produces. -/
def GoodWords (ws : List (List Char)) : Prop :=
  ∀ w ∈ ws, w ≠ [] ∧ ∀ c ∈ w, pyIsSpace c = false


/-!
## Streaming Pipeline

Embedding of `StreamingPipeline` (`jarvis-voice.py` lines 421-827).  The
token loop of `_try_ollama_stream` / `_try_cloud_stream` is modelled as a
left fold of `processToken` over the list of streamed token fragments; the
`sentence_queue` contents appear in emission order in the `out` field
(`none` is the Python `None` end-of-stream poison pill).  The model is the
uncancelled sequential run: `self.cancel` is never set during the fold.
-/

/-- `format_for_speech` (`jarvis-voice.py` lines 404-414): strip markdown
markers, turn newlines into periods, collapse period and whitespace runs,
and strip. -/
def format_for_speech (text : String) : String :=
  if text = "" then ""
  else
    let t1 := pyReplace text.data "**".data []
    let t2 := pyReplace t1 "*".data []
    let t3 := pyReplace t2 "#".data []
    let t4 := pyReplace t3 "```".data []
    let t5 := pyReplace t4 "`".data []
    let t6 := pyReplace t5 "\n\n".data ". ".data
    let t7 := pyReplace t6 "\n".data ". ".data
    String.mk (pyStrip (subMultiSpace (subDotRuns t7)))

/-- A character matched by `[\w-]` in the route pattern (ASCII). -/
def isRouteIdChar (c : Char) : Bool :=
  c.isAlphanum || c = '_' || c = '-'

/-- Matcher for `\[ROUTE:([\w-]+)\]\s*(.*)` (with `re.DOTALL`) at the head
of `l`, returning the agent id and the second group already `.strip()`ed,
as the Python callers use it. -/
def routeMatchCore (l : List Char) : Option (String × String) :=
  match dropLit "[ROUTE:".data l with
  | none => none
  | some rest =>
    let agentId := rest.takeWhile isRouteIdChar
    match rest.dropWhile isRouteIdChar with
    | ']' :: rest2 =>
      if agentId.isEmpty then none
      else some (String.mk agentId, String.mk (pyStrip (rest2.dropWhile pyIsSpace)))
    | _ => none

/-- The route regex of `_process_token_buffer` (line 677):
`re.match(r"\s*\[ROUTE:([\w-]+)\]\s*(.*)", buffer, re.DOTALL)`, with
`group(2).strip()`. -/
def routeMatch (s : String) : Option (String × String) :=
  routeMatchCore (s.data.dropWhile pyIsSpace)

/-- The route regex of `_handle_turn` (line 1164), which has no leading
`\s*`. -/
def routeMatchStrict (s : String) : Option (String × String) :=
  routeMatchCore s.data

/-- `ROUTE_DETECTION_CHARS`: config default 50 (`jarvis-voice.py` line 144;
no `jarvis-config.json` is present in the repository). -/
def ROUTE_DETECTION_CHARS : Nat := 50

/-- The routing sentinel string `f"__ROUTE__:{agent_id}:{refined_query}"`. -/
def routeSentinel (agentId refinedQuery : String) : String :=
  "__ROUTE__:" ++ agentId ++ ":" ++ refinedQuery

/-- State of one streaming run: the token buffer, the `route_check_done`
flag, the items put on `sentence_queue` so far, the accumulated
`full_response`, and whether the loop returned early on a detected route. -/
structure StreamState where
  buffer : String
  routeDone : Bool
  out : List (Option String)
  fullResponse : String
  stopped : Bool
  deriving DecidableEq, Repr

/-- The fresh state at the start of `run`. -/
def initStream : StreamState :=
  { buffer := "", routeDone := false, out := [], fullResponse := "", stopped := false }

/-- `_process_token_buffer` (lines 670-694): route detection is skipped once
`route_check_done` is set or the buffer has outgrown the detection window
plus the 50-character grace margin. -/
def processTokenBuffer (buf : String) (routeDone : Bool) : Option (String × String) :=
  if routeDone then none
  else if buf.length > ROUTE_DETECTION_CHARS + 50 then none
  else routeMatch buf

/-- `_emit_sentences` (lines 696-709): clean and segment the buffer; with
more than one sentence, emit all but the last (each if its strip is
non-empty) and keep the last as the new buffer, else keep the buffer
unchanged. -/
def emit_sentences (buf : String) : List String × String :=
  let sentences := split_into_sentences (format_for_speech buf)
  if sentences.length > 1 then
    (sentences.dropLast.filter (fun s => !(pyStrip s.data).isEmpty), sentences.getLastD "")
  else ([], buf)

/-- `self.full_response += sent + " "` over the emitted sentences. -/
def accumSentences (emitted : List String) : String :=
  String.join (emitted.map (fun s => s ++ " "))

/-- `_flush_buffer` (lines 711-718): if the buffer strip is non-empty, emit
the cleaned buffer when that is non-empty. -/
def flush_buffer (buf : String) : List String :=
  if !(pyStrip buf.data).isEmpty then
    (let c := format_for_speech buf
     if c ≠ "" then [c] else [])
  else []

/-- One iteration of the token loop of `_try_ollama_stream` /
`_try_cloud_stream` (lines 534-564, 615-651): skip falsy tokens, append to
the buffer, attempt route detection (emitting the sentinel and the poison
pill and returning early on a match), update `route_check_done`, then
emit completed sentences. -/
def processToken (st : StreamState) (tok : String) : StreamState :=
  if st.stopped then st
  else if tok = "" then st
  else
    let buf := st.buffer ++ tok
    match processTokenBuffer buf st.routeDone with
    | some (agentId, q) =>
      { st with
        buffer := buf
        stopped := true
        fullResponse := "[ROUTE:" ++ agentId ++ "] " ++ q
        out := st.out ++ [some (routeSentinel agentId q), none] }
    | none =>
      let rd := st.routeDone || decide (buf.length > ROUTE_DETECTION_CHARS)
      let es := emit_sentences buf
      { st with
        buffer := es.2
        routeDone := rd
        out := st.out ++ es.1.map some
        fullResponse := st.fullResponse ++ accumSentences es.1 }

/-- The same iteration with the route-detection logic removed: plain
sentence segmentation only. -/
def plainProcessToken (st : StreamState) (tok : String) : StreamState :=
  if st.stopped then st
  else if tok = "" then st
  else
    let buf := st.buffer ++ tok
    let es := emit_sentences buf
    { st with
      buffer := es.2
      out := st.out ++ es.1.map some
      fullResponse := st.fullResponse ++ accumSentences es.1 }

/-- A whole successful stream: fold the token loop, then (unless a route
ended the loop early) flush the remaining buffer and put the poison pill. -/
def runTokens (st : StreamState) (tokens : List String) : StreamState :=
  let st1 := tokens.foldl processToken st
  if st1.stopped then st1
  else
    { st1 with
      out := st1.out ++ (flush_buffer st1.buffer).map some ++ [none]
      fullResponse := st1.fullResponse ++ String.join (flush_buffer st1.buffer) }

/-!
## Provider Fallback

`_stream_from_ollama` (lines 484-510) tries the local provider, then each
cloud fallback in order, and finally emits the fixed apology.  A provider
is abstracted by its observable outcome: a successful token stream, or a
failure (connect error, timeout, or any other error — every failure makes
the `_try_*` helper return `False` and advances the chain).
-/

/-- Outcome of contacting one provider. -/
inductive ProviderResult where
  | ok (tokens : List String)
  | connectFail
  | timeout
  | httpFail
  deriving DecidableEq, Repr

/-- `_try_ollama_stream` / `_try_cloud_stream` viewed through the outcome:
a reachable provider streams its tokens and returns `True`; any failure
leaves the state unchanged and returns `False`. -/
def tryStream (st : StreamState) (r : ProviderResult) : StreamState × Bool :=
  match r with
  | .ok tokens => (runTokens st tokens, true)
  | _ => (st, false)

/-- The `for provider in CLOUD_FALLBACKS` loop (lines 498-503). -/
def tryChain (st : StreamState) : List ProviderResult → StreamState × Bool
  | [] => (st, false)
  | r :: rest =>
    match tryStream st r with
    | (st1, true) => (st1, true)
    | (st1, false) => tryChain st1 rest

/-- The fixed apology sentence of line 507. -/
def APOLOGY : String := "I can't reach any of my thinking engines right now."

/-- The error marker written to `full_response` on exhaustion (line 509). -/
def ALL_UNREACHABLE : String := "[error: all providers unreachable]"

/-- `_stream_from_ollama` (lines 484-510). -/
def stream_from_ollama (primary : ProviderResult) (chain : List ProviderResult)
    (st : StreamState) : StreamState :=
  match tryStream st primary with
  | (st1, true) => st1
  | (st1, false) =>
    match tryChain st1 chain with
    | (st2, true) => st2
    | (st2, false) =>
      { st2 with
        out := st2.out ++ [some APOLOGY, none]
        fullResponse := ALL_UNREACHABLE }

/-- A cloud provider descriptor as `load_llm_providers` sees it: its id and
the resolved API key (empty when the credential env var is unset). -/
structure ProviderDesc where
  pid : String
  apiKey : String
  deriving DecidableEq, Repr

/-- The credential filter of `load_llm_providers` (lines 180-183):
providers whose resolved key is empty are skipped. -/
def buildFallbackChain (descs : List ProviderDesc) : List ProviderDesc :=
  descs.filter (fun d => !(d.apiKey == ""))

/-- What `_handle_turn` does with the finished run's `full_response`. -/
inductive TurnAction where
  | routed (agentId refinedQuery : String)
  | remembered (response : String)
  | notRemembered (response : String)
  deriving DecidableEq, Repr

/-- `_handle_turn` (lines 1151-1177) up to its memory effects: add the user
turn, then either hand off to routing, record the assistant turn, or (for
an empty or `[error:`-prefixed response) record nothing. -/
def handle_turn (maxTurns : Nat) (turns : List Turn) (text response : String) :
    List Turn × TurnAction :=
  let turns1 := add_user maxTurns turns text
  match routeMatchStrict response with
  | some (agentId, q) => (turns1, .routed agentId (if q = "" then text else q))
  | none =>
    if response ≠ "" && !(pyStartsWith response "[error:") then
      (add_assistant maxTurns turns1 response, .remembered response)
    else (turns1, .notRemembered response)

/-!
## Playback and Cancellation

`_play_audio_chunks` (lines 791-827) and `interrupt` (lines 469-482).  The
audio queue holds PCM buffers, the `b"__SKIP__"` marker, the string routing
sentinel, or the `None` poison pill.  The playback loop checks the cancel
flag at the top of each iteration and again after each dequeue; those
observation points are numbered, and the flag becomes a function from
observation points to `Bool`.
-/

/-- An item on the audio queue. -/
inductive AudioItem where
  | eos
  | routeMark (s : String)
  | skip
  | pcm (data : List Nat)
  deriving DecidableEq, Repr

/-- `_play_audio_chunks`: returns the PCM buffers actually played, in
order.  `cancelSeq k` is the cancel flag at observation point `k`. -/
def playAudioChunks (cancelSeq : Nat → Bool) : Nat → List AudioItem → List (List Nat)
  | _, [] => []
  | k, item :: rest =>
    if cancelSeq k then []
    else if item = .eos then []
    else if cancelSeq (k + 1) then []
    else
      match item with
      | .routeMark _ => []
      | .skip => playAudioChunks cancelSeq (k + 2) rest
      | .pcm b => b :: playAudioChunks cancelSeq (k + 2) rest
      | .eos => []

/-- The cancellation-relevant state of a `StreamingPipeline`: the cancel
flag and the two queues. -/
structure PipeState where
  cancelFlag : Bool
  sentenceQ : List (Option String)
  audioQ : List AudioItem
  deriving DecidableEq, Repr

/-- The `get_nowait` drain loop of `interrupt`: removes every buffered
item. -/
def drainQueue {α : Type} (_q : List α) : List α := []

/-- `interrupt` (lines 469-482): set the cancel flag, drain both queues,
and put a poison pill on each. -/
def interruptPipe (st : PipeState) : PipeState :=
  { cancelFlag := true
    sentenceQ := drainQueue st.sentenceQ ++ [none]
    audioQ := drainQueue st.audioQ ++ [.eos] }


lemma trim_length_le (maxTurns : Nat) (l : List Turn) (hm : 1 ≤ maxTurns) :
    (trim maxTurns l).length ≤ 2 * maxTurns := by
  unfold trim
  by_cases h : l.length > maxTurns * 2
  · have h0 : ¬ maxTurns * 2 = 0 := by omega
    simp only [h, if_true, h0, if_false, List.length_drop]
    omega
  · simp only [h, if_false]
    omega

lemma forget_last_cases (ts : List Turn) :
    forget_last ts = ts ∨ forget_last ts = ts.dropLast ∨
      forget_last ts = ts.dropLast.dropLast := by
  unfold forget_last
  cases h : ts.getLast? with
  | none =>
    cases h2 : ts.getLast? with
    | none => simp [h]
    | some t => simp [h] at h2
  | some t =>
    by_cases hr : t.role = "assistant"
    · simp only [hr, if_true]
      cases h2 : ts.dropLast.getLast? with
      | none => tauto
      | some t2 =>
        by_cases hr2 : t2.role = "user"
        · simp only [hr2, if_true]
          tauto
        · simp only [hr2, if_false]
          tauto
    · simp only [hr, if_false]
      cases h2 : ts.getLast? with
      | none => tauto
      | some t2 =>
        rw [h] at h2
        cases h2
        by_cases hr2 : t.role = "user"
        · simp only [hr2, if_true]
          tauto
        · simp only [hr2, if_false]
          tauto

lemma forget_last_length_le (ts : List Turn) :
    (forget_last ts).length ≤ ts.length := by
  rcases forget_last_cases ts with h | h | h <;>
    simp only [h, List.length_dropLast] <;> omega

lemma pairsFrom_length (us asst : Nat → String) (n : Nat) :
    ∀ lo, (pairsFrom us asst lo n).length = 2 * n := by
  induction n with
  | zero => intro lo; rfl
  | succ n ih =>
    intro lo
    simp only [pairsFrom, List.length_cons, ih (lo + 1)]
    omega

lemma pairsFrom_succ_right (us asst : Nat → String) (n : Nat) :
    ∀ lo, pairsFrom us asst lo (n + 1) =
      pairsFrom us asst lo n ++ [⟨"user", us (lo + n)⟩, ⟨"assistant", asst (lo + n)⟩] := by
  induction n with
  | zero => intro lo; simp [pairsFrom]
  | succ n ih =>
    intro lo
    have harith : lo + 1 + n = lo + (n + 1) := by omega
    calc pairsFrom us asst lo (n + 2)
        = ⟨"user", us lo⟩ :: ⟨"assistant", asst lo⟩ :: pairsFrom us asst (lo + 1) (n + 1) := rfl
      _ = ⟨"user", us lo⟩ :: ⟨"assistant", asst lo⟩ ::
            (pairsFrom us asst (lo + 1) n ++
              [⟨"user", us (lo + 1 + n)⟩, ⟨"assistant", asst (lo + 1 + n)⟩]) := by rw [ih (lo + 1)]
      _ = pairsFrom us asst lo (n + 1) ++
            [⟨"user", us (lo + (n + 1))⟩, ⟨"assistant", asst (lo + (n + 1))⟩] := by
          rw [harith]; rfl

lemma trim_of_le (maxTurns : Nat) (l : List Turn) (h : ¬ l.length > maxTurns * 2) :
    trim maxTurns l = l := by
  unfold trim
  simp only [h, if_false]

lemma trim_of_gt (maxTurns : Nat) (l : List Turn) (h : l.length > maxTurns * 2)
    (h0 : maxTurns ≠ 0) : trim maxTurns l = l.drop (l.length - maxTurns * 2) := by
  unfold trim
  have h0' : ¬ (maxTurns * 2 = 0) := by omega
  simp only [h, if_true, h0', if_false]

lemma appendPairs_eq (maxTurns : Nat) (us asst : Nat → String) (k : Nat) (hk : k ≤ maxTurns) :
    appendPairs maxTurns us asst k = pairsFrom us asst 0 k := by
  induction k with
  | zero => rfl
  | succ k ih =>
    have hk' : k ≤ maxTurns := by omega
    rw [appendPairs, ih hk']
    unfold add_user
    rw [trim_of_le _ _ (by simp only [List.length_append, List.length_cons,
      List.length_nil, pairsFrom_length]; omega)]
    unfold add_assistant
    rw [trim_of_le _ _ (by simp only [List.length_append, List.length_cons,
      List.length_nil, pairsFrom_length]; omega)]
    rw [pairsFrom_succ_right]
    simp

/-- C3 (amended): for `maxTurns ≥ 1`, starting from an empty memory,
appending `maxTurns + 1` user/assistant pairs through
`add_user`/`add_assistant` (each followed by the trim step) leaves exactly
the pairs `1 .. maxTurns` in order — `maxTurns` pairs, i.e. `2 × maxTurns`
turns, with the oldest pair (pair 0) evicted first. -/
theorem C3_rolling_window_eviction (maxTurns : Nat) (us asst : Nat → String)
    (hm : 1 ≤ maxTurns) :
    appendPairs maxTurns us asst (maxTurns + 1) = pairsFrom us asst 1 maxTurns ∧
    (pairsFrom us asst 1 maxTurns).length = 2 * maxTurns := by
  refine ⟨?_, pairsFrom_length us asst maxTurns 1⟩
  obtain ⟨m, rfl⟩ : ∃ m, maxTurns = m + 1 := ⟨maxTurns - 1, by omega⟩
  rw [appendPairs, appendPairs_eq _ _ _ _ (le_refl _)]
  have hsplit : pairsFrom us asst 0 (m + 1)
      = ⟨"user", us 0⟩ :: ⟨"assistant", asst 0⟩ :: pairsFrom us asst 1 m := rfl
  unfold add_user
  rw [trim_of_gt _ _ (by simp only [List.length_append, List.length_cons,
    List.length_nil, pairsFrom_length]; omega) (by omega)]
  have hd1 : (pairsFrom us asst 0 (m + 1) ++ [(⟨"user", us (m + 1)⟩ : Turn)]).length
      - (m + 1) * 2 = 1 := by
    simp only [List.length_append, List.length_cons, List.length_nil, pairsFrom_length]
    omega
  rw [hd1, hsplit]
  simp only [List.cons_append, List.drop_succ_cons, List.drop_zero]
  unfold add_assistant
  rw [trim_of_gt _ _ (by simp only [List.length_append, List.length_cons,
    List.length_nil, pairsFrom_length]; omega) (by omega)]
  have hd2 : ((⟨"assistant", asst 0⟩ :: (pairsFrom us asst 1 m ++
      [(⟨"user", us (m + 1)⟩ : Turn)])) ++ [(⟨"assistant", asst (m + 1)⟩ : Turn)]).length
      - (m + 1) * 2 = 1 := by
    simp only [List.length_append, List.length_cons, List.length_nil, pairsFrom_length]
    omega
  rw [hd2]
  simp only [List.cons_append, List.drop_succ_cons, List.drop_zero]
  rw [pairsFrom_succ_right us asst m 1]
  have harith : 1 + m = m + 1 := by omega
  rw [harith]
  simp

/-- C3 counterexample: with `maxTurns = 0` the Python slice `turns[-0:]`
is the whole list, so after `0 + 1` pairs the memory holds one pair, not
zero pairs. -/
theorem C3_counterexample :
    (appendPairs 0 (fun _ => "u") (fun _ => "a") (0 + 1)).length ≠ 2 * 0 := by decide

/-- C3 witness: the amended theorem at `maxTurns = 2`. -/
theorem C3_witness :
    1 ≤ 2 ∧ appendPairs 2 (fun _ => "q") (fun _ => "r") (2 + 1) =
      pairsFrom (fun _ => "q") (fun _ => "r") 1 2 :=
  ⟨by decide, (C3_rolling_window_eviction 2 (fun _ => "q") (fun _ => "r") (by decide)).1⟩

/-- C6: `forget_last` performs two independent checks in order — it pops
the trailing turn if its role is assistant, then pops the (new) trailing
turn if its role is user.  On an empty history nothing is removed; a
trailing user turn with no following assistant turn is removed alone; a
user/assistant pair at the tail is removed entirely; a trailing assistant
turn with no preceding user turn is removed alone. -/
theorem C6_forget_last_independent_checks :
    forget_last [] = [] ∧
    (∀ (ts : List Turn) (u : String), forget_last (ts ++ [⟨"user", u⟩]) = ts) ∧
    (∀ (ts : List Turn) (u a : String),
      forget_last (ts ++ [⟨"user", u⟩, ⟨"assistant", a⟩]) = ts) ∧
    (∀ (a : String), forget_last [⟨"assistant", a⟩] = []) ∧
    (∀ (ts : List Turn) (a a' : String),
      forget_last (ts ++ [⟨"assistant", a⟩, ⟨"assistant", a'⟩]) = ts ++ [⟨"assistant", a⟩]) := by
  refine ⟨rfl, ?_, ?_, ?_, ?_⟩
  · intro ts u
    simp [forget_last, List.getLast?_concat, List.dropLast_concat]
  · intro ts u a
    rw [show ts ++ [(⟨"user", u⟩ : Turn), ⟨"assistant", a⟩]
        = (ts ++ [⟨"user", u⟩]) ++ [⟨"assistant", a⟩] by simp]
    simp [forget_last, List.getLast?_concat, List.dropLast_concat]
  · intro a
    simp [forget_last]
  · intro ts a a'
    rw [show ts ++ [(⟨"assistant", a⟩ : Turn), ⟨"assistant", a'⟩]
        = (ts ++ [⟨"assistant", a⟩]) ++ [⟨"assistant", a'⟩] by simp]
    simp [forget_last, List.getLast?_concat, List.dropLast_concat]

/-- C8 counterexample: with `maxTurns = 0` the bound holds before
`add_user` on the empty memory (`0 ≤ 0`) but not after, because the Python
slice `turns[-0:]` keeps the whole list. -/
theorem C8_counterexample : ¬ ((add_user 0 [] "hi").length ≤ 2 * 0) := by decide

/-- C8 (amended): for `maxTurns ≥ 1`, the bound `len(turns) ≤ 2 × maxTurns`
is an invariant of every `ConversationMemory` operation: if it holds before
`add_user`, `add_assistant`, `clear`, or `forget_last`, it holds after. -/
theorem C8_length_invariant (maxTurns : Nat) (turns : List Turn) (text : String)
    (hm : 1 ≤ maxTurns) (h : turns.length ≤ 2 * maxTurns) :
    (add_user maxTurns turns text).length ≤ 2 * maxTurns ∧
    (add_assistant maxTurns turns text).length ≤ 2 * maxTurns ∧
    (clearMemory turns).length ≤ 2 * maxTurns ∧
    (forget_last turns).length ≤ 2 * maxTurns := by
  refine ⟨trim_length_le maxTurns _ hm, trim_length_le maxTurns _ hm, ?_, ?_⟩
  · simp [clearMemory]
  · exact le_trans (forget_last_length_le turns) h

/-- C8 witness: the invariant theorem applied at `maxTurns = 1` on the
empty memory. -/
theorem C8_witness :
    (1 : Nat) ≤ 1 ∧ ([] : List Turn).length ≤ 2 * 1 ∧ (add_user 1 [] "x").length ≤ 2 * 1 :=
  ⟨by decide, by decide, (C8_length_invariant 1 [] "x" (by decide) (by decide)).1⟩

/-- C1 counterexample: the segmenter does not return two sentences for the
claimed input — the bare-numeric guard suppresses the boundary after
`"12."`. -/
theorem C1_counterexample :
    split_into_sentences "The total is 12. It increased." ≠
      ["The total is 12.", "It increased."] := by decide

/-- C1 (amended): for the input `"The total is 12. It increased."` the
segmenter returns exactly the single sentence
`["The total is 12. It increased."]` — the ordinal/numeric guard makes the
`.`-terminated all-digit token `"12."` a non-boundary, so no split happens
there. -/
theorem C1_numeric_guard_single_sentence :
    split_into_sentences "The total is 12. It increased." =
      ["The total is 12. It increased."] := by decide

/-- C9: for the input `"Dr. Smith arrived at 3.5pm. He left."` the
segmenter returns exactly `["Dr. Smith arrived at 3.5pm.", "He left."]` —
the abbreviation `"Dr."` and the decimal-bearing token `"3.5pm."` do not
create spurious boundaries. -/
theorem C9_abbreviation_decimal_guards :
    split_into_sentences "Dr. Smith arrived at 3.5pm. He left." =
      ["Dr. Smith arrived at 3.5pm.", "He left."] := by decide

lemma foldl_processToken_stopped (st : StreamState) (hs : st.stopped = true) :
    ∀ toks : List String, List.foldl processToken st toks = st := by
  intro toks
  induction toks with
  | nil => rfl
  | cons t ts ih =>
    rw [List.foldl_cons, show processToken st t = st from by simp [processToken, hs]]
    exact ih

/-- C4: for the streamed reply `"[ROUTE:deal-scanner] find me a laundromat"`
route detection parses `agentId = "deal-scanner"` and
`refinedQuery = "find me a laundromat"`, the run emits exactly one routing
sentinel followed by the end-of-stream marker (so no ordinary sentence
precedes the sentinel), the loop stops with no further tokens pulled
(processing any further tokens leaves the state unchanged), and
`full_response` records the parsed route. -/
theorem C4_route_detection :
    routeMatch "[ROUTE:deal-scanner] find me a laundromat" =
      some ("deal-scanner", "find me a laundromat") ∧
    (runTokens initStream ["[ROUTE:deal-scanner] find me a laundromat"]).out =
      [some (routeSentinel "deal-scanner" "find me a laundromat"), none] ∧
    (runTokens initStream ["[ROUTE:deal-scanner] find me a laundromat"]).stopped = true ∧
    (runTokens initStream ["[ROUTE:deal-scanner] find me a laundromat"]).fullResponse =
      "[ROUTE:deal-scanner] find me a laundromat" ∧
    ∀ more : List String,
      List.foldl processToken
        (runTokens initStream ["[ROUTE:deal-scanner] find me a laundromat"]) more =
      runTokens initStream ["[ROUTE:deal-scanner] find me a laundromat"] := by
  refine ⟨by decide, by decide, by decide, by decide, ?_⟩
  intro more
  exact foldl_processToken_stopped _ (by decide) more

lemma plainProcessToken_routeDone (st : StreamState) (tok : String) :
    (plainProcessToken st tok).routeDone = st.routeDone := by
  unfold plainProcessToken
  by_cases h1 : st.stopped
  · simp [h1]
  · by_cases h2 : tok = "" <;> simp [h1, h2]

lemma processToken_eq_plain (st : StreamState) (hr : st.routeDone = true) (tok : String) :
    processToken st tok = plainProcessToken st tok := by
  unfold processToken plainProcessToken
  by_cases h1 : st.stopped
  · simp [h1]
  · by_cases h2 : tok = ""
    · simp [h1, h2]
    · simp only [h1, h2, if_false, Bool.false_eq_true]
      rw [show processTokenBuffer (st.buffer ++ tok) st.routeDone = none from by
        unfold processTokenBuffer; rw [hr]; simp]
      simp [hr]

/-- C7: route detection is attempted only while `route_check_done` is unset
and the buffer is within `ROUTE_DETECTION_CHARS` plus the 50-character
grace margin; once `route_check_done` is set the rest of the run is
exactly the plain segmentation loop (a later `[ROUTE:...]` marker is never
emitted as a routing sentinel), and concretely a marker arriving with the
flag set comes out as an ordinary sentence followed by the end-of-stream
marker. -/
theorem C7_route_window_permanent_disable :
    (∀ buf : String, processTokenBuffer buf true = none) ∧
    (∀ (buf : String) (rd : Bool), buf.length > ROUTE_DETECTION_CHARS + 50 →
      processTokenBuffer buf rd = none) ∧
    (∀ st : StreamState, st.routeDone = true →
      ∀ toks : List String,
        List.foldl processToken st toks = List.foldl plainProcessToken st toks) ∧
    (runTokens { initStream with routeDone := true } ["[ROUTE:deal-scanner] hi"]).out =
      [some "[ROUTE:deal-scanner] hi", none] := by
  refine ⟨?_, ?_, ?_, by decide⟩
  · intro buf
    simp [processTokenBuffer]
  · intro buf rd h
    unfold processTokenBuffer
    cases rd
    · simp [h]
    · simp
  · intro st hr toks
    induction toks generalizing st with
    | nil => rfl
    | cons t ts ih =>
      rw [List.foldl_cons, List.foldl_cons, processToken_eq_plain st hr t]
      exact ih _ (by rw [plainProcessToken_routeDone]; exact hr)

/-- C7 witness: the window/disable facts at concrete inputs — a buffer with
the flag set, a 101-character buffer beyond the window-plus-grace margin,
and a short disabled-state run. -/
theorem C7_witness :
    processTokenBuffer "x" true = none ∧
    ((String.mk (List.replicate 101 'a')).length > ROUTE_DETECTION_CHARS + 50 ∧
      processTokenBuffer (String.mk (List.replicate 101 'a')) false = none) ∧
    List.foldl processToken { initStream with routeDone := true } ["[ROUTE:x] y"] =
      List.foldl plainProcessToken { initStream with routeDone := true } ["[ROUTE:x] y"] :=
  ⟨C7_route_window_permanent_disable.1 "x",
   ⟨by decide, C7_route_window_permanent_disable.2.1 _ false (by decide)⟩,
   C7_route_window_permanent_disable.2.2.1 _ (by decide) _⟩

/-- C2: when the local primary provider fails with a connect error or a
timeout and the runtime fallback chain is empty, `_stream_from_ollama`
puts exactly the fixed apology sentence and the end-of-stream marker on
the sentence channel and sets `full_response` to the `[error:`-prefixed
marker; `_handle_turn` then adds no assistant turn (the memory is exactly
what `add_user` left).  Moreover, when no provider descriptor holds a
configured credential, `load_llm_providers` builds an empty chain. -/
theorem C2_exhaustion_apology_no_memory (primary : ProviderResult)
    (hp : primary = ProviderResult.connectFail ∨ primary = ProviderResult.timeout)
    (maxTurns : Nat) (turns : List Turn) (text : String) :
    (stream_from_ollama primary [] initStream).out = [some APOLOGY, none] ∧
    (stream_from_ollama primary [] initStream).fullResponse = ALL_UNREACHABLE ∧
    pyStartsWith (stream_from_ollama primary [] initStream).fullResponse "[error:" = true ∧
    handle_turn maxTurns turns text (stream_from_ollama primary [] initStream).fullResponse =
      (add_user maxTurns turns text, TurnAction.notRemembered ALL_UNREACHABLE) ∧
    (∀ descs : List ProviderDesc, (∀ d ∈ descs, d.apiKey = "") →
      buildFallbackChain descs = []) := by
  have hfr : stream_from_ollama primary [] initStream =
      { buffer := "", routeDone := false, out := [some APOLOGY, none],
        fullResponse := ALL_UNREACHABLE, stopped := false } := by
    rcases hp with rfl | rfl <;> rfl
  refine ⟨by rw [hfr], by rw [hfr], by rw [hfr]; decide, ?_, ?_⟩
  · rw [hfr]
    show handle_turn maxTurns turns text ALL_UNREACHABLE = _
    unfold handle_turn
    rw [show routeMatchStrict ALL_UNREACHABLE = none from by decide]
    rw [show (ALL_UNREACHABLE ≠ "" && !(pyStartsWith ALL_UNREACHABLE "[error:")) = false
      from by decide]
    simp
  · intro descs hd
    unfold buildFallbackChain
    rw [List.filter_eq_nil_iff]
    intro d hdm
    simp [hd d hdm]

/-- C2 witness: the theorem at a concrete connect failure with a concrete
memory. -/
theorem C2_witness :
    (ProviderResult.connectFail = ProviderResult.connectFail ∨
      ProviderResult.connectFail = ProviderResult.timeout) ∧
    (stream_from_ollama ProviderResult.connectFail [] initStream).out =
      [some APOLOGY, none] ∧
    handle_turn 20 [] "hello" (stream_from_ollama ProviderResult.connectFail []
      initStream).fullResponse = (add_user 20 [] "hello", TurnAction.notRemembered ALL_UNREACHABLE) :=
  ⟨Or.inl rfl,
   (C2_exhaustion_apology_no_memory _ (Or.inl rfl) 20 [] "hello").1,
   (C2_exhaustion_apology_no_memory _ (Or.inl rfl) 20 [] "hello").2.2.2.1⟩

/-- C5: once the cancel flag is set (at observation point `T`) and stays
set, the playback loop plays no buffer still queued or subsequently
dequeued; and `interrupt` is idempotent — a second invocation leaves the
pipeline in the same cancelled state: flag set and both channels drained
except for the injected end-of-stream markers. -/
theorem C5_cancellation_playback_idempotent (cancelSeq : Nat → Bool) (T : Nat)
    (hset : ∀ j, T ≤ j → cancelSeq j = true) :
    (∀ k, T ≤ k → ∀ items : List AudioItem, playAudioChunks cancelSeq k items = []) ∧
    (∀ st : PipeState,
      interruptPipe (interruptPipe st) = interruptPipe st ∧
      (interruptPipe st).cancelFlag = true ∧
      (interruptPipe st).sentenceQ = [none] ∧
      (interruptPipe st).audioQ = [AudioItem.eos]) := by
  constructor
  · intro k hk items
    cases items with
    | nil => rfl
    | cons item rest =>
      unfold playAudioChunks
      rw [hset k hk]
      simp
  · intro st
    exact ⟨rfl, rfl, rfl, rfl⟩

/-- C5 witness: the theorem with the flag set from observation point 0, a
queued PCM buffer, and a concrete pipeline state. -/
theorem C5_witness :
    (∀ j : Nat, 0 ≤ j → (fun _ : Nat => true) j = true) ∧
    playAudioChunks (fun _ => true) 0 [AudioItem.pcm [1, 2]] = [] ∧
    interruptPipe (interruptPipe ⟨false, [some "s"], [AudioItem.pcm [3]]⟩) =
      interruptPipe ⟨false, [some "s"], [AudioItem.pcm [3]]⟩ :=
  ⟨fun _ _ => rfl,
   (C5_cancellation_playback_idempotent (fun _ => true) 0 (fun _ _ => rfl)).1 0
     (Nat.le_refl 0) [AudioItem.pcm [1, 2]],
   ((C5_cancellation_playback_idempotent (fun _ => true) 0 (fun _ _ => rfl)).2
     ⟨false, [some "s"], [AudioItem.pcm [3]]⟩).1⟩

lemma emit_cur_sound (cur : List Char) (hcur : ∀ c ∈ cur, pyIsSpace c = false)
    (w : List Char)
    (hw : w ∈ (if cur.isEmpty then ([] : List (List Char)) else [cur.reverse])) :
    w ≠ [] ∧ ∀ c ∈ w, pyIsSpace c = false := by
  by_cases hc : cur.isEmpty
  · rw [if_pos hc] at hw
    simp at hw
  · rw [if_neg hc] at hw
    simp only [List.mem_singleton] at hw
    subst hw
    refine ⟨?_, ?_⟩
    · simp only [ne_eq, List.reverse_eq_nil_iff]
      intro h
      rw [h] at hc
      exact hc rfl
    · intro c hcmem
      exact hcur c (List.mem_reverse.mp hcmem)

lemma pyWordsAux_sound (l : List Char) :
    ∀ cur : List Char, (∀ c ∈ cur, pyIsSpace c = false) →
      ∀ w ∈ pyWordsAux l cur, w ≠ [] ∧ ∀ c ∈ w, pyIsSpace c = false := by
  induction l with
  | nil =>
    intro cur hcur w hw
    exact emit_cur_sound cur hcur w hw
  | cons c rest ih =>
    intro cur hcur w hw
    unfold pyWordsAux at hw
    by_cases hsp : pyIsSpace c = true
    · rw [if_pos hsp] at hw
      rcases List.mem_append.mp hw with h1 | h2
      · exact emit_cur_sound cur hcur w h1
      · exact ih [] (by intro x hx; simp at hx) w h2
    · rw [if_neg hsp] at hw
      refine ih (c :: cur) ?_ w hw
      intro x hx
      rcases List.mem_cons.mp hx with rfl | hx'
      · exact Bool.not_eq_true _ ▸ eq_false_of_ne_true hsp
      · exact hcur x hx'

lemma pyWords_good (l : List Char) : GoodWords (pyWords l) := by
  intro w hw
  exact pyWordsAux_sound l [] (by intro x hx; simp at hx) w hw

lemma joinWords_ne_nil (w : List Char) (ws : List (List Char)) (hw : w ≠ []) :
    joinWords (w :: ws) ≠ [] := by
  cases ws with
  | nil => simpa [joinWords] using hw
  | cons v ws' =>
    show w ++ ' ' :: joinWords (v :: ws') ≠ []
    simp

lemma joinWords_head? (w : List Char) (ws : List (List Char)) (hw : w ≠ []) :
    (joinWords (w :: ws)).head? = w.head? := by
  cases ws with
  | nil => rfl
  | cons v ws' =>
    cases w with
    | nil => exact absurd rfl hw
    | cons c w' => rfl

lemma joinWords_append (l1 l2 : List (List Char)) (h1 : l1 ≠ []) (h2 : l2 ≠ []) :
    joinWords (l1 ++ l2) = joinWords l1 ++ ' ' :: joinWords l2 := by
  induction l1 with
  | nil => exact absurd rfl h1
  | cons a l1' ih =>
    cases l1' with
    | nil =>
      cases l2 with
      | nil => exact absurd rfl h2
      | cons b l2' => rfl
    | cons a' l1'' =>
      have e1 : (a :: a' :: l1'') ++ l2 = a :: ((a' :: l1'') ++ l2) := rfl
      have e2 : (a' :: l1'') ++ l2 = a' :: (l1'' ++ l2) := rfl
      rw [e1, e2]
      show a ++ ' ' :: joinWords (a' :: (l1'' ++ l2)) = _
      rw [← e2, ih (by simp)]
      show a ++ ' ' :: (joinWords (a' :: l1'') ++ ' ' :: joinWords l2) =
        (a ++ ' ' :: joinWords (a' :: l1'')) ++ ' ' :: joinWords l2
      simp

lemma joinWords_getLast? (ws : List (List Char)) (w : List Char)
    (hall : ∀ x ∈ ws, x ≠ []) (hw : w ≠ []) :
    (joinWords (ws ++ [w])).getLast? = w.getLast? := by
  cases ws with
  | nil => rfl
  | cons v ws' =>
    rw [joinWords_append (v :: ws') [w] (by simp) (by simp)]
    rw [List.getLast?_append_of_ne_nil _ (by simp)]
    show (' ' :: joinWords [w]).getLast? = w.getLast?
    cases w with
    | nil => exact absurd rfl hw
    | cons c w' =>
      show (' ' :: (c :: w')).getLast? = (c :: w').getLast?
      exact List.getLast?_cons_cons

lemma dropWhile_eq_self_of_head (p : Char → Bool) (l : List Char)
    (h : ∀ c ∈ l.head?, p c = false) : l.dropWhile p = l := by
  cases l with
  | nil => rfl
  | cons c l' =>
    have hc : p c = false := h c rfl
    simp [List.dropWhile_cons, hc]

lemma pyStrip_eq_self (l : List Char)
    (h1 : ∀ c ∈ l.head?, pyIsSpace c = false)
    (h2 : ∀ c ∈ l.getLast?, pyIsSpace c = false) : pyStrip l = l := by
  unfold pyStrip
  rw [dropWhile_eq_self_of_head _ _ h1]
  rw [dropWhile_eq_self_of_head _ _ (by rw [List.head?_reverse]; exact h2)]
  exact List.reverse_reverse l

lemma joined_strip (ws : List (List Char)) (hws : GoodWords ws) (hne : ws ≠ []) :
    pyStrip (joinWords ws) = joinWords ws ∧ joinWords ws ≠ [] := by
  obtain ⟨w, ws', rfl⟩ : ∃ w ws', ws = w :: ws' := by
    cases ws with
    | nil => exact absurd rfl hne
    | cons w ws' => exact ⟨w, ws', rfl⟩
  have hw : w ≠ [] := (hws w (by simp)).1
  refine ⟨?_, joinWords_ne_nil w ws' hw⟩
  apply pyStrip_eq_self
  · intro c hc
    rw [joinWords_head? w ws' hw] at hc
    exact (hws w (by simp)).2 c (List.mem_of_mem_head? hc)
  · intro c hc
    rcases List.eq_nil_or_concat (w :: ws') with hnil | ⟨init, last, heq⟩
    · simp at hnil
    · rw [List.concat_eq_append] at heq
      have hlast_mem : last ∈ w :: ws' := by rw [heq]; simp
      have hlast_ne : last ≠ [] := (hws last hlast_mem).1
      rw [heq, joinWords_getLast? init last
        (fun x hx => (hws x (by rw [heq]; exact List.mem_append_left _ hx)).1) hlast_ne] at hc
      exact (hws last hlast_mem).2 c (List.mem_of_mem_getLast? hc)

lemma splitLoop_mem_ne_nil (ws : List (List Char)) :
    ∀ current : List (List Char), ∀ s ∈ splitLoop current ws, s ≠ [] := by
  induction ws with
  | nil =>
    intro current s hs
    unfold splitLoop at hs
    cases current with
    | nil => simp at hs
    | cons c cs =>
      by_cases hemp : (pyStrip (joinWords (c :: cs))).isEmpty
      · rw [if_pos hemp] at hs; simp at hs
      · rw [if_neg hemp] at hs
        simp only [List.mem_singleton] at hs
        subst hs
        exact fun h => hemp (by rw [h]; rfl)
  | cons w rest ih =>
    intro current s hs
    unfold splitLoop at hs
    by_cases hb : endsSentence w rest.head? = true
    · rw [if_pos hb] at hs
      rcases List.mem_append.mp hs with h1 | h2
      · by_cases hemp : (pyStrip (joinWords (current ++ [w]))).isEmpty
        · rw [if_pos hemp] at h1; simp at h1
        · rw [if_neg hemp] at h1
          simp only [List.mem_singleton] at h1
          subst h1
          exact fun h => hemp (by rw [h]; rfl)
      · exact ih [] s h2
    · rw [if_neg hb] at hs
      exact ih (current ++ [w]) s hs

lemma goodWords_append_single (current : List (List Char)) (w : List Char)
    (hcur : GoodWords current) (hw : w ≠ [] ∧ ∀ c ∈ w, pyIsSpace c = false) :
    GoodWords (current ++ [w]) := by
  intro x hx
  rcases List.mem_append.mp hx with h1 | h2
  · exact hcur x h1
  · simp only [List.mem_singleton] at h2
    subst h2
    exact hw

lemma splitLoop_ne_nil (ws : List (List Char)) :
    ∀ current : List (List Char), GoodWords ws → GoodWords current →
      (current ≠ [] ∨ ws ≠ []) → splitLoop current ws ≠ [] := by
  induction ws with
  | nil =>
    intro current _ hcur hne
    have hc : current ≠ [] := by
      rcases hne with h | h
      · exact h
      · exact absurd rfl h
    obtain ⟨hstrip, hjoin⟩ := joined_strip current hcur hc
    unfold splitLoop
    cases current with
    | nil => exact absurd rfl hc
    | cons c cs =>
      have hemp : ¬ (pyStrip (joinWords (c :: cs))).isEmpty := by
        rw [hstrip]
        simpa [List.isEmpty_iff] using hjoin
      rw [if_neg hemp]
      simp
  | cons w rest ih =>
    intro current hws hcur _
    have hgw : w ≠ [] ∧ ∀ c ∈ w, pyIsSpace c = false := hws w (by simp)
    have hrest : GoodWords rest := fun x hx => hws x (List.mem_cons_of_mem _ hx)
    have hcw : GoodWords (current ++ [w]) := goodWords_append_single current w hcur hgw
    unfold splitLoop
    by_cases hb : endsSentence w rest.head? = true
    · rw [if_pos hb]
      obtain ⟨hstrip, hjoin⟩ := joined_strip (current ++ [w]) hcw (by simp)
      have hemp : ¬ (pyStrip (joinWords (current ++ [w]))).isEmpty := by
        rw [hstrip]
        simpa [List.isEmpty_iff] using hjoin
      rw [if_neg hemp]
      simp
    · rw [if_neg hb]
      exact ih (current ++ [w]) hrest hcw (Or.inl (by simp))

lemma all_space_of_strip_isEmpty (l : List Char) (hg : (pyStrip l).isEmpty) :
    ∀ c ∈ l, pyIsSpace c = true := by
  have hstrip : pyStrip l = [] := List.isEmpty_iff.mp hg
  have hrev : (l.dropWhile pyIsSpace).reverse.dropWhile pyIsSpace = [] := by
    have := congrArg List.reverse hstrip
    simpa [pyStrip] using this
  have hdw : ∀ x ∈ l.dropWhile pyIsSpace, pyIsSpace x = true := by
    intro x hx
    exact List.dropWhile_eq_nil_iff.mp hrev x (List.mem_reverse.mpr hx)
  intro c hc
  rcases List.mem_append.mp ((List.takeWhile_append_dropWhile pyIsSpace l) ▸ hc) with h1 | h2
  · exact List.mem_takeWhile_imp h1
  · exact hdw c h2

lemma pyWordsAux_all_space (l : List Char) (hall : ∀ c ∈ l, pyIsSpace c = true) :
    pyWordsAux l [] = [] := by
  induction l with
  | nil => rfl
  | cons c rest ih =>
    unfold pyWordsAux
    rw [if_pos (hall c (List.mem_cons_self c rest))]
    simp only [List.isEmpty_nil, if_true, List.nil_append]
    exact ih (fun x hx => hall x (List.mem_cons_of_mem _ hx))

lemma pyWords_eq_nil_of_all_space (l : List Char) (hall : ∀ c ∈ l, pyIsSpace c = true) :
    pyWords l = [] :=
  pyWordsAux_all_space l hall

lemma splitLoop_join (ws : List (List Char)) :
    ∀ current : List (List Char), GoodWords ws → GoodWords current →
      joinWords (splitLoop current ws) = joinWords (current ++ ws) := by
  induction ws with
  | nil =>
    intro current _ hcur
    unfold splitLoop
    cases current with
    | nil => rfl
    | cons c cs =>
      obtain ⟨hstrip, hjoin⟩ := joined_strip (c :: cs) hcur (by simp)
      have hemp : ¬ (pyStrip (joinWords (c :: cs))).isEmpty := by
        rw [hstrip]
        simpa [List.isEmpty_iff] using hjoin
      rw [if_neg hemp]
      show joinWords [pyStrip (joinWords (c :: cs))] = joinWords ((c :: cs) ++ [])
      rw [List.append_nil]
      show pyStrip (joinWords (c :: cs)) = joinWords (c :: cs)
      exact hstrip
  | cons w rest ih =>
    intro current hws hcur
    have hgw : w ≠ [] ∧ ∀ c ∈ w, pyIsSpace c = false := hws w (by simp)
    have hrest : GoodWords rest := fun x hx => hws x (List.mem_cons_of_mem _ hx)
    have hcw : GoodWords (current ++ [w]) := goodWords_append_single current w hcur hgw
    have hassoc : (current ++ [w]) ++ rest = current ++ (w :: rest) := by simp
    unfold splitLoop
    by_cases hb : endsSentence w rest.head? = true
    · rw [if_pos hb]
      obtain ⟨hstrip, hjoin⟩ := joined_strip (current ++ [w]) hcw (by simp)
      have hemp : ¬ (pyStrip (joinWords (current ++ [w]))).isEmpty := by
        rw [hstrip]
        simpa [List.isEmpty_iff] using hjoin
      rw [if_neg hemp]
      cases rest with
      | nil =>
        show joinWords ([pyStrip (joinWords (current ++ [w]))] ++ splitLoop [] []) = _
        show joinWords ([pyStrip (joinWords (current ++ [w]))] ++ []) = _
        rw [List.append_nil]
        show pyStrip (joinWords (current ++ [w])) = joinWords (current ++ [w])
        rw [hstrip]
      | cons r rs =>
        have hT : splitLoop [] (r :: rs) ≠ [] :=
          splitLoop_ne_nil (r :: rs) [] hrest (by intro x hx; simp at hx)
            (Or.inr (by simp))
        rw [joinWords_append [pyStrip (joinWords (current ++ [w]))] (splitLoop [] (r :: rs))
          (by simp) hT]
        rw [ih [] hrest (by intro x hx; simp at hx)]
        show joinWords [pyStrip (joinWords (current ++ [w]))] ++ ' ' :: joinWords (r :: rs)
          = joinWords (current ++ w :: r :: rs)
        have hr : joinWords [pyStrip (joinWords (current ++ [w]))]
            = joinWords (current ++ [w]) := hstrip
        rw [hr]
        rw [show current ++ w :: r :: rs = (current ++ [w]) ++ (r :: rs) by simp]
        rw [joinWords_append (current ++ [w]) (r :: rs) (by simp) (by simp)]
    · rw [if_neg hb]
      rw [ih (current ++ [w]) hrest hcw]
      rw [hassoc]

/-- C10: the segmenter loses no text and emits no empty sentences — every
returned sentence is non-empty, joining the returned sentences with single
spaces equals the whitespace-normalized input (Python
`" ".join(text.split())`), and an empty or whitespace-only input yields
the empty list. -/
theorem C10_segmenter_lossless (text : String) :
    (∀ s ∈ split_into_sentences text, s ≠ "") ∧
    pyJoin (split_into_sentences text) = pyJoin ((pyWords text.data).map String.mk) ∧
    ((∀ c ∈ text.data, pyIsSpace c = true) → split_into_sentences text = []) := by
  have hgood : GoodWords (pyWords text.data) := pyWords_good text.data
  have hmapdata : ∀ L : List (List Char), (L.map String.mk).map String.data = L := by
    intro L
    rw [List.map_map]
    exact List.map_id'' (fun l => rfl) L
  refine ⟨?_, ?_, ?_⟩
  · intro s hs
    unfold split_into_sentences at hs
    by_cases hg : (pyStrip text.data).isEmpty
    · rw [if_pos hg] at hs
      simp at hs
    · rw [if_neg hg] at hs
      obtain ⟨l, hl, rfl⟩ := List.mem_map.mp hs
      have hne := splitLoop_mem_ne_nil (pyWords text.data) [] l hl
      intro hcon
      apply hne
      have hd : (String.mk l).data = ("" : String).data := by rw [hcon]
      simpa using hd
  · unfold split_into_sentences pyJoin
    by_cases hg : (pyStrip text.data).isEmpty
    · rw [if_pos hg]
      rw [pyWords_eq_nil_of_all_space text.data (all_space_of_strip_isEmpty text.data hg)]
      rfl
    · rw [if_neg hg]
      rw [hmapdata, hmapdata]
      exact congrArg String.mk
        (splitLoop_join (pyWords text.data) [] hgood (by intro x hx; simp at hx))
  · intro hall
    unfold split_into_sentences
    have h1 : text.data.dropWhile pyIsSpace = [] :=
      List.dropWhile_eq_nil_iff.mpr (fun x hx => hall x hx)
    rw [if_pos (by simp [pyStrip, h1])]

/-- C10 witness: the losslessness theorem evaluated at a whitespace-only
input and at a concrete two-sentence input. -/
theorem C10_witness :
    split_into_sentences " \t " = [] ∧
    pyJoin (split_into_sentences "Hi there. Bye") =
      pyJoin ((pyWords "Hi there. Bye".data).map String.mk) :=
  ⟨(C10_segmenter_lossless " \t ").2.2 (by decide),
   (C10_segmenter_lossless "Hi there. Bye").2.1⟩
